import Mathlib

/-!
# Verification of the taiwu-backup core (shallow embedding)

This file embeds the core of the `taiwu-backup` save-file backup engine
(`src/lib.rs`, `src/game_root.rs`) in Lean and proves properties of the
embedded definitions.

Modelling conventions:
* A filesystem path (`std::path::PathBuf`) is a list of components
  (`List String`); `Path::join` appends one component, `Path::parent`
  drops the last component, `Path::file_name` is the last component.
* Filesystem facts (`is_file`, `is_dir`) and fallible IO effects
  (`fs::copy`, the backup call, watcher setup, the notification stream)
  are supplied as explicit oracles, so every embedded operation is a
  pure function of the engine state and those oracles.
* An operation that performs a sequence of backups is embedded so that it
  returns the trace of backup invocations it performed (source paths, in
  invocation order) together with an optional error that terminated it,
  mirroring Rust's `?`-propagation.
* `Mutex<Option<RecommendedWatcher>>` is embedded as an `Option Unit`
  field: the operations on it are sequentialised, which is the only view
  the claims need.
* The nanosecond timestamp (`i64` from `chrono`) is an `Int`; Rust's
  `format!("{}", t)` for an integer is Lean's `toString`.
-/

/-- A filesystem path, as its list of components. -/
abbrev FsPath := List String

/-- Rust constant `APPDATA_FOLDER_NAME: &str = "TaiwuBackup"`. -/
def APPDATA_FOLDER_NAME : String := "TaiwuBackup"

/-- Rust constant `BACKUP_FOLDER_NAME: &str = "BackupData"`. -/
def BACKUP_FOLDER_NAME : String := "BackupData"

/-- Rust constant `TAIWU_GAME_SAVE_ROOT_NAME: &str = "Save"`. -/
def TAIWU_GAME_SAVE_ROOT_NAME : String := "Save"

/-- Rust constant `TAIWU_GAME_SAVE_FILE_NAME: &str = "local.sav"`. -/
def TAIWU_GAME_SAVE_FILE_NAME : String := "local.sav"

/-- Rust constant `TAIWU_GAME_SAVE_WORLD_NUMBER_MAX: usize = 5`. -/
def TAIWU_GAME_SAVE_WORLD_NUMBER_MAX : Nat := 5

/-- The `notify::event::RenameMode` enum. -/
inductive RenameMode where
  | Any | To | From | Both | Other
  deriving DecidableEq

/-- The `notify::event::DataChange` enum. -/
inductive DataChange where
  | Any | Size | Content | Other
  deriving DecidableEq

/-- The `notify::event::MetadataKind` enum. -/
inductive MetadataKind where
  | Any | AccessTime | WriteTime | Permissions | Ownership | Extended | Other
  deriving DecidableEq

/-- The `notify::event::ModifyKind` enum. -/
inductive ModifyKind where
  | Any
  | Data (c : DataChange)
  | Metadata (k : MetadataKind)
  | Name (m : RenameMode)
  | Other
  deriving DecidableEq

/-- The `notify::event::AccessMode` enum. -/
inductive AccessMode where
  | Any | Execute | Read | Write | Other
  deriving DecidableEq

/-- The `notify::event::AccessKind` enum. -/
inductive AccessKind where
  | Any | Read | Open (m : AccessMode) | Close (m : AccessMode) | Other
  deriving DecidableEq

/-- The `notify::event::CreateKind` enum. -/
inductive CreateKind where
  | Any | File | Folder | Other
  deriving DecidableEq

/-- The `notify::event::RemoveKind` enum. -/
inductive RemoveKind where
  | Any | File | Folder | Other
  deriving DecidableEq

/-- The `notify::EventKind` enum. -/
inductive EventKind where
  | Any
  | Access (k : AccessKind)
  | Create (k : CreateKind)
  | Modify (k : ModifyKind)
  | Remove (k : RemoveKind)
  | Other
  deriving DecidableEq

/-- The `notify::Event` struct: the kind together with the paths it concerns. -/
structure Event where
  kind : EventKind
  paths : List FsPath
  deriving DecidableEq

/-- An `std::io::Error`, identified by its message. -/
abbrev IoError := String

/-- A `notify::Error`, identified by its message. -/
abbrev NotifyError := String

/-- The `TaiwuError` enum of `src/lib.rs`. -/
inductive TaiwuError where
  | GameRootNotFound
  | BackupRootDefaultNotAvailable
  | IoError (e : IoError)
  | NotifyError (e : NotifyError)
  | Unknown
  deriving DecidableEq

/-- The `Taiwu` struct: game root, backup root, and the watcher slot
(`Mutex<Option<RecommendedWatcher>>`, embedded as `Option Unit`). -/
structure Taiwu where
  game_root : FsPath
  backup_root : FsPath
  watcher : Option Unit
  deriving DecidableEq

/-- The `GameRoot` struct of `src/game_root.rs`. -/
structure GameRoot where
  path : FsPath
  deriving DecidableEq

/-- Embeds `GameRoot::new(path)`: `Some` exactly when `path.is_dir()`; the
filesystem is supplied as the `isDir` oracle. -/
def GameRoot.new (isDir : FsPath → Bool) (path : FsPath) : Option GameRoot :=
  if isDir path then some { path := path } else none

/-- Embeds `get_backup_root_default()`: the local data dir joined with
`TaiwuBackup/BackupData`; `BaseDirs::new()` is the `baseDirs` oracle
(`none` when the OS conventions are unresolvable). -/
def get_backup_root_default (baseDirs : Option FsPath) : Except TaiwuError FsPath :=
  match baseDirs with
  | some d => .ok (d ++ [APPDATA_FOLDER_NAME, BACKUP_FOLDER_NAME])
  | none => .error .BackupRootDefaultNotAvailable

/-- Embeds `Taiwu::with_path(path)`: validate the explicit game root, then
resolve the default backup root. -/
def Taiwu.with_path (isDir : FsPath → Bool) (baseDirs : Option FsPath)
    (path : FsPath) : Except TaiwuError Taiwu :=
  match GameRoot.new isDir path with
  | some root =>
    match get_backup_root_default baseDirs with
    | .ok backup_root =>
      .ok { game_root := root.path, backup_root := backup_root, watcher := none }
    | .error e => .error e
  | none => .error .GameRootNotFound

/-- Embeds `Taiwu::save_root()`: `<game_root>/Save`. -/
def Taiwu.save_root (tw : Taiwu) : FsPath :=
  tw.game_root ++ [TAIWU_GAME_SAVE_ROOT_NAME]

/-- Embeds `Taiwu::save_file(world)`: `<game_root>/Save/world_<world>/local.sav`. -/
def Taiwu.save_file (tw : Taiwu) (world : Nat) : FsPath :=
  tw.save_root ++ ["world_" ++ toString world, TAIWU_GAME_SAVE_FILE_NAME]

/-- Embeds `Taiwu::is_save_file(path)`: membership in the tracked-path set,
checked by comparing against `save_file(world)` for `world` in
`1..=TAIWU_GAME_SAVE_WORLD_NUMBER_MAX`. -/
def Taiwu.is_save_file (tw : Taiwu) (path : FsPath) : Bool :=
  (List.range' 1 TAIWU_GAME_SAVE_WORLD_NUMBER_MAX).any
    (fun world => path = tw.save_file world)

/-- Embeds `new_backup_file_name_now()` with the clock made explicit:
`format!("{}.{}", TAIWU_GAME_SAVE_FILE_NAME, timestamp)`. -/
def new_backup_file_name (timestamp : Int) : String :=
  TAIWU_GAME_SAVE_FILE_NAME ++ "." ++ toString timestamp

/-- The destination path computed by `Taiwu::backup(src)`:
`backup_root.join(src.parent().unwrap().file_name().unwrap()).join(new_backup_file_name_now())`.
`none` models the panic of the two `unwrap`s on a component-less path. -/
def Taiwu.backup_dst (tw : Taiwu) (src : FsPath) (timestamp : Int) : Option FsPath :=
  match src.dropLast.getLast? with
  | some folder_name => some (tw.backup_root ++ [folder_name, new_backup_file_name timestamp])
  | none => none

/-- The destination path that claim C3's wording prescribes (spec §4.2):
`<BackupRoot>/<base name of the source's parent>/<sourceFileName>.<timestampNanos>`,
where `<sourceFileName>` is the file name of the source path.  Spec-side
definition, for comparison with `Taiwu.backup_dst`. -/
def spec_backup_dst (tw : Taiwu) (src : FsPath) (timestamp : Int) : Option FsPath :=
  match src.dropLast.getLast?, src.getLast? with
  | some folder_name, some src_file_name =>
    some (tw.backup_root ++ [folder_name, src_file_name ++ "." ++ toString timestamp])
  | _, _ => none

/-- The slot ids `1..=TAIWU_GAME_SAVE_WORLD_NUMBER_MAX` iterated by
`backup_once` and `is_save_file`. -/
def slotIds : List Nat := List.range' 1 TAIWU_GAME_SAVE_WORLD_NUMBER_MAX

/-- The loop body of `Taiwu::backup_once` over a list of slot ids: for
each slot whose save file exists (`isFile` oracle), invoke the backup
(`bk` oracle, `none` = success); `?` propagates the first failure.
Returns the trace of invoked backups and the terminating error, if any. -/
def backupOnceGo (tw : Taiwu) (isFile : FsPath → Bool) (bk : FsPath → Option IoError) :
    List Nat → List FsPath × Option IoError
  | [] => ([], none)
  | world :: ws =>
    let save := tw.save_file world
    if isFile save then
      match bk save with
      | none =>
        let r := backupOnceGo tw isFile bk ws
        (save :: r.1, r.2)
      | some e => ([save], some e)
    else backupOnceGo tw isFile bk ws

/-- Embeds `Taiwu::backup_once()`: iterate slots `1..=5`. -/
def Taiwu.backup_once (tw : Taiwu) (isFile : FsPath → Bool)
    (bk : FsPath → Option IoError) : List FsPath × Option IoError :=
  backupOnceGo tw isFile bk slotIds

/-- The loop body of `Taiwu::process` over the event's paths: untracked
paths are skipped; a `Modify(Any)` kind triggers a backup (`?` propagates
its failure); `Modify(Name(From))`, other modify sub-kinds and non-modify
kinds do nothing. Returns the trace of invoked backups and the
terminating error, if any. -/
def processGo (tw : Taiwu) (bk : FsPath → Option IoError) (kind : EventKind) :
    List FsPath → List FsPath × Option IoError
  | [] => ([], none)
  | p :: ps =>
    if tw.is_save_file p then
      match kind with
      | .Modify mk =>
        match mk with
        | .Any =>
          match bk p with
          | none =>
            let r := processGo tw bk kind ps
            (p :: r.1, r.2)
          | some e => ([p], some e)
        | .Name rm =>
          match rm with
          | .From => processGo tw bk kind ps
          | .Any | .To | .Both | .Other => processGo tw bk kind ps
        | .Data _ | .Metadata _ | .Other => processGo tw bk kind ps
      | .Any | .Access _ | .Create _ | .Remove _ | .Other => processGo tw bk kind ps
    else processGo tw bk kind ps

/-- Embeds `Taiwu::process(event)`. -/
def Taiwu.process (tw : Taiwu) (bk : FsPath → Option IoError) (e : Event) :
    List FsPath × Option IoError :=
  processGo tw bk e.kind e.paths

/-- The receive loop of `Taiwu::watch`: an `Err` delivery item is logged
and the loop continues; an `Ok(event)` is processed, a processing error
ending the loop (`?`). -/
def watchLoop (tw : Taiwu) (bk : FsPath → Option IoError) :
    List (Except NotifyError Event) → List FsPath × Option IoError
  | [] => ([], none)
  | (.error _) :: rest => watchLoop tw bk rest
  | (.ok ev) :: rest =>
    match tw.process bk ev with
    | (tr, none) =>
      let r := watchLoop tw bk rest
      (tr ++ r.1, r.2)
    | (tr, some e) => (tr, some e)

/-- Embeds `Taiwu::watch()`: watcher setup (`setup` oracle; `some` = a
`notify::Error` from watcher creation or registration), then the watcher
is stored in the mutex slot, then the receive loop runs over the
delivered notifications. Returns the backup trace, the result, and the
engine state after the call. -/
def Taiwu.watch (tw : Taiwu) (setup : Option NotifyError)
    (bk : FsPath → Option IoError) (notifications : List (Except NotifyError Event)) :
    (List FsPath × Option TaiwuError) × Taiwu :=
  match setup with
  | some e => (([], some (.NotifyError e)), tw)
  | none =>
    let tw1 := { tw with watcher := some () }
    let r := watchLoop tw1 bk notifications
    ((r.1, r.2.map .IoError), tw1)

/-- Embeds `Taiwu::unwatch()`: take the watcher out of the mutex slot (dropping
it if present). -/
def Taiwu.unwatch (tw : Taiwu) : Taiwu :=
  { tw with watcher := none }

/-- One engine operation, with its oracles, for reasoning about
sequences of calls. -/
inductive Op where
  | backupOnce (isFile : FsPath → Bool) (bk : FsPath → Option IoError)
  | watch (setup : Option NotifyError) (bk : FsPath → Option IoError)
      (notifications : List (Except NotifyError Event))
  | unwatch
  | backup (src : FsPath) (timestamp : Int)

/-- The engine state after one operation. `backup_once` and `backup`
take `&self` and never touch the struct; `watch` stores the watcher on
successful setup; `unwatch` clears it. -/
def applyOp (tw : Taiwu) : Op → Taiwu
  | .backupOnce _ _ => tw
  | .watch setup bk ns => (tw.watch setup bk ns).2
  | .unwatch => tw.unwatch
  | .backup _ _ => tw

/-- The engine state after a sequence of operations. -/
def applyOps (tw : Taiwu) (ops : List Op) : Taiwu :=
  ops.foldl applyOp tw

/-- A concrete engine used by the witnesses. -/
def twEx : Taiwu :=
  { game_root := ["C:", "Games", "Taiwu"], backup_root := ["C:", "Backups"],
    watcher := none }

/-- The decimal digit characters of `n`, fuel-free; characterises
`Nat.toDigits 10` (hence `Nat.repr`). -/
def natChars (n : Nat) : List Char :=
  if n < 10 then [Nat.digitChar n]
  else natChars (n / 10) ++ [Nat.digitChar (n % 10)]
termination_by n
decreasing_by exact Nat.div_lt_self (by omega) (by omega)

/-- The numeric value of a decimal digit character. -/
def charVal (c : Char) : Nat := c.toNat - 48

/-- Decode a digit-character list back to the number it denotes. -/
def ofChars (l : List Char) : Nat :=
  l.foldl (fun acc c => 10 * acc + charVal c) 0

/-- One step of a sequence of backup invocations over a list of source
paths: invoke `bk` on each in order, `?`-propagating the first failure.
Both `backup_once` and `process` reduce to this shape. -/
def backupSeq (bk : FsPath → Option IoError) : List FsPath → List FsPath × Option IoError
  | [] => ([], none)
  | p :: ps =>
    match bk p with
    | none =>
      let r := backupSeq bk ps
      (p :: r.1, r.2)
    | some e => ([p], some e)

/-- A backup oracle on which every copy succeeds. -/
def bkOk : FsPath → Option IoError := fun _ => none

/-- A backup oracle on which every copy fails with a permission error. -/
def bkFail : FsPath → Option IoError := fun _ => some "permission denied"

/-- An existence oracle: only the slot-1 and slot-3 save files exist. -/
def isFile13 : FsPath → Bool :=
  fun p => p = twEx.save_file 1 ∨ p = twEx.save_file 3

/-- An existence oracle on which no file exists. -/
def noFile : FsPath → Bool := fun _ => false

/-- A directory oracle on which every path is a directory. -/
def allDirs : FsPath → Bool := fun _ => true

/-- A content-modify event on the tracked slot-1 save file. -/
def evEx : Event :=
  { kind := .Modify .Any, paths := [twEx.save_file 1] }

/-- An untracked source path inside a save-world folder, used to separate
the code's destination naming from the spec's. -/
def srcEx : FsPath := ["C:", "Games", "Taiwu", "Save", "world_2", "foo.bin"]

/-- A decimal digit character decodes back to its value. -/
theorem charVal_digitChar (d : Nat) (hd : d < 10) : charVal (Nat.digitChar d) = d := by
  interval_cases d <;> decide

/-- With enough fuel, `Nat.toDigitsCore` computes `natChars`. -/
theorem toDigitsCore_eq_natChars (fuel : Nat) :
    ∀ n ds, n < fuel → Nat.toDigitsCore 10 fuel n ds = natChars n ++ ds := by
  induction fuel with
  | zero => intro n ds h; omega
  | succ fuel ih =>
    intro n ds h
    rw [Nat.toDigitsCore]
    by_cases h10 : n / 10 = 0
    · have hn : n < 10 := by omega
      rw [natChars]
      simp [h10, hn, Nat.mod_eq_of_lt hn]
    · have hn : ¬ n < 10 := by
        intro hlt
        exact h10 (Nat.div_eq_of_lt hlt)
      rw [natChars]
      simp only [hn, if_false]
      rw [if_neg h10, ih (n / 10) _ (by omega)]
      simp

/-- The decimal printing of a natural number is its `natChars`. -/
theorem repr_eq_natChars (n : Nat) : Nat.repr n = (natChars n).asString := by
  unfold Nat.repr Nat.toDigits
  rw [toDigitsCore_eq_natChars (n + 1) n [] (by omega)]
  simp

/-- Folding the decoder over `natChars n` recovers `n` (with the
accumulator shifted by the digit count). -/
theorem foldl_natChars (n : Nat) :
    ∀ acc, (natChars n).foldl (fun acc c => 10 * acc + charVal c) acc
      = acc * 10 ^ (natChars n).length + n := by
  induction n using Nat.strong_induction_on with
  | _ n ih =>
    intro acc
    by_cases hn : n < 10
    · rw [natChars]
      simp [hn, charVal_digitChar n hn]
      ring
    · rw [natChars]
      simp only [hn, if_false]
      rw [List.foldl_append]
      have hdiv : n / 10 < n := Nat.div_lt_self (by omega) (by omega)
      rw [ih (n / 10) hdiv acc]
      simp [charVal_digitChar (n % 10) (Nat.mod_lt n (by omega))]
      have h1 : 10 * (acc * 10 ^ (natChars (n / 10)).length + n / 10) + n % 10
          = acc * 10 ^ ((natChars (n / 10)).length + 1) + (10 * (n / 10) + n % 10) := by
        ring
      rw [h1, Nat.div_add_mod]

/-- Decoding is a left inverse of `natChars`. -/
theorem ofChars_natChars (n : Nat) : ofChars (natChars n) = n := by
  unfold ofChars
  rw [foldl_natChars n 0]
  simp

/-- The digit-character list of a natural number determines it. -/
theorem natChars_injective : Function.Injective natChars := by
  intro a b h
  have := congrArg ofChars h
  rwa [ofChars_natChars, ofChars_natChars] at this

/-- Packing a character list into a string is injective. -/
theorem asString_injective : Function.Injective List.asString := by
  intro a b h
  have := congrArg String.data h
  simpa [List.asString] using this

/-- Decimal printing of natural numbers is injective. -/
theorem nat_repr_injective : Function.Injective Nat.repr := by
  intro a b h
  rw [repr_eq_natChars, repr_eq_natChars] at h
  exact natChars_injective (asString_injective h)

/-- The decimal printing of a natural number starts with a digit character. -/
theorem natChars_head (n : Nat) :
    ∃ d tail, d < 10 ∧ natChars n = Nat.digitChar d :: tail := by
  induction n using Nat.strong_induction_on with
  | _ n ih =>
    by_cases hn : n < 10
    · exact ⟨n, [], hn, by rw [natChars]; simp [hn]⟩
    · obtain ⟨d, tail, hd, htl⟩ := ih (n / 10) (Nat.div_lt_self (by omega) (by omega))
      refine ⟨d, tail ++ [Nat.digitChar (n % 10)], hd, ?_⟩
      rw [natChars]
      simp [hn, htl]

/-- The decimal printing of a natural number never starts with a minus sign. -/
theorem repr_head_ne_dash (n : Nat) : ∀ s, Nat.repr n ≠ "-" ++ s := by
  intro s h
  rw [repr_eq_natChars] at h
  have hd := congrArg String.data h
  simp [List.asString, String.data_append] at hd
  obtain ⟨d, tail, hdlt, htl⟩ := natChars_head n
  rw [htl] at hd
  have : Nat.digitChar d = '-' := by
    have := congrArg List.head? hd
    simpa using this
  interval_cases d <;> simp_all <;> exact absurd this (by decide)

/-- Lean's `toString` on `Int` is `Int.repr`, the embedding of Rust's
`{}` formatting of an `i64`. -/
theorem toString_int_eq (i : Int) : toString i = Int.repr i := rfl

/-- Decimal printing of integers is injective. -/
theorem int_repr_injective : Function.Injective Int.repr := by
  intro a b h
  cases a with
  | ofNat m =>
    cases b with
    | ofNat k =>
      simp only [Int.repr] at h
      exact congrArg Int.ofNat (nat_repr_injective h)
    | negSucc k =>
      simp only [Int.repr] at h
      exact absurd h (repr_head_ne_dash m _)
  | negSucc m =>
    cases b with
    | ofNat k =>
      simp only [Int.repr] at h
      exact absurd h.symm (repr_head_ne_dash k _)
    | negSucc k =>
      simp only [Int.repr] at h
      have hd := congrArg String.data h
      simp [String.data_append] at hd
      have h2 : Nat.repr (m + 1) = Nat.repr (k + 1) := String.ext hd
      have h3 := nat_repr_injective h2
      have h4 : m = k := by omega
      rw [h4]

/-- For an event kind other than `Modify(Any)`, processing invokes no
backup and cannot fail. -/
theorem processGo_ne_any (tw : Taiwu) (bk : FsPath → Option IoError) (kind : EventKind)
    (h : kind ≠ .Modify .Any) :
    ∀ ps, processGo tw bk kind ps = ([], none) := by
  intro ps
  induction ps with
  | nil => rfl
  | cons p ps ih =>
    cases kind with
    | Modify mk =>
      cases mk with
      | Any => exact absurd rfl h
      | Name rm => cases rm <;> (rw [processGo]; simp only [ite_self]; exact ih)
      | Data c => rw [processGo]; simp only [ite_self]; exact ih
      | Metadata k => rw [processGo]; simp only [ite_self]; exact ih
      | Other => rw [processGo]; simp only [ite_self]; exact ih
    | Any => rw [processGo]; simp only [ite_self]; exact ih
    | Access k => rw [processGo]; simp only [ite_self]; exact ih
    | Create k => rw [processGo]; simp only [ite_self]; exact ih
    | Remove k => rw [processGo]; simp only [ite_self]; exact ih
    | Other => rw [processGo]; simp only [ite_self]; exact ih

/-- For a `Modify(Any)` event, processing is the backup sequence over the
tracked paths of the event, in order. -/
theorem processGo_any (tw : Taiwu) (bk : FsPath → Option IoError) :
    ∀ ps, processGo tw bk (.Modify .Any) ps = backupSeq bk (ps.filter tw.is_save_file) := by
  intro ps
  induction ps with
  | nil => rfl
  | cons p ps ih =>
    rw [processGo]
    by_cases hs : tw.is_save_file p
    · rw [if_pos hs, List.filter_cons_of_pos hs, backupSeq]
      cases bk p with
      | none => simp [ih]
      | some e => rfl
    · rw [if_neg hs, List.filter_cons_of_neg (by simpa using hs)]
      exact ih

/-- When every invocation succeeds, the backup sequence invokes each
source once, in order, and reports no error. -/
theorem backupSeq_all_ok (bk : FsPath → Option IoError) :
    ∀ ps, (∀ p ∈ ps, bk p = none) → backupSeq bk ps = (ps, none) := by
  intro ps
  induction ps with
  | nil => intro _; rfl
  | cons p ps ih =>
    intro h
    rw [backupSeq, h p (by simp)]
    simp only []
    rw [ih (fun q hq => h q (by simp [hq]))]

/-- Every path in a backup-sequence trace comes from the input list. -/
theorem backupSeq_trace_subset (bk : FsPath → Option IoError) :
    ∀ ps p, p ∈ (backupSeq bk ps).1 → p ∈ ps := by
  intro ps
  induction ps with
  | nil => intro p h; exact absurd h (by simp [backupSeq])
  | cons q ps ih =>
    intro p h
    rw [backupSeq] at h
    cases hq : bk q with
    | none =>
      rw [hq] at h
      simp only [List.mem_cons] at h ⊢
      rcases h with h | h
      · exact Or.inl h
      · exact Or.inr (ih p h)
    | some e =>
      rw [hq] at h
      simp at h
      simp [h]

/-- Changing only the watcher slot does not change event processing. -/
theorem processGo_watcher (tw : Taiwu) (w : Option Unit) (bk : FsPath → Option IoError)
    (kind : EventKind) :
    ∀ ps, processGo { tw with watcher := w } bk kind ps = processGo tw bk kind ps := by
  intro ps
  have hsave : ∀ p, Taiwu.is_save_file { tw with watcher := w } p = tw.is_save_file p :=
    fun p => rfl
  induction ps with
  | nil => rfl
  | cons p ps ih =>
    cases kind with
    | Modify mk =>
      cases mk with
      | Any =>
        rw [processGo, processGo, hsave p]
        by_cases hs : tw.is_save_file p
        · rw [if_pos hs, if_pos hs]
          cases bk p <;> simp [ih]
        · rw [if_neg hs, if_neg hs]
          exact ih
      | Name rm =>
        cases rm <;> (rw [processGo, processGo, hsave p]; simp only [ite_self]; exact ih)
      | Data c => rw [processGo, processGo, hsave p]; simp only [ite_self]; exact ih
      | Metadata k => rw [processGo, processGo, hsave p]; simp only [ite_self]; exact ih
      | Other => rw [processGo, processGo, hsave p]; simp only [ite_self]; exact ih
    | Any => rw [processGo, processGo, hsave p]; simp only [ite_self]; exact ih
    | Access k => rw [processGo, processGo, hsave p]; simp only [ite_self]; exact ih
    | Create k => rw [processGo, processGo, hsave p]; simp only [ite_self]; exact ih
    | Remove k => rw [processGo, processGo, hsave p]; simp only [ite_self]; exact ih
    | Other => rw [processGo, processGo, hsave p]; simp only [ite_self]; exact ih

/-- Changing only the watcher slot does not change `process`. -/
theorem process_watcher (tw : Taiwu) (w : Option Unit) (bk : FsPath → Option IoError)
    (e : Event) : Taiwu.process { tw with watcher := w } bk e = tw.process bk e :=
  processGo_watcher tw w bk e.kind e.paths

/-- The startup loop is the backup sequence over the save files of the
slots whose file exists, in slot order. -/
theorem backupOnceGo_eq (tw : Taiwu) (isFile : FsPath → Bool) (bk : FsPath → Option IoError) :
    ∀ ws, backupOnceGo tw isFile bk ws
      = backupSeq bk ((ws.filter fun w => isFile (tw.save_file w)).map tw.save_file) := by
  intro ws
  induction ws with
  | nil => rfl
  | cons w ws ih =>
    rw [backupOnceGo]
    by_cases hf : isFile (tw.save_file w)
    · rw [if_pos hf, List.filter_cons_of_pos (p := fun w => isFile (tw.save_file w)) hf,
        List.map_cons, backupSeq]
      cases bk (tw.save_file w) with
      | none => simp [ih]
      | some e => rfl
    · rw [if_neg hf,
        List.filter_cons_of_neg (p := fun w => isFile (tw.save_file w)) (by simpa using hf)]
      exact ih

/-- The backup sequence reports no error exactly when every listed
invocation succeeds. -/
theorem backupSeq_err_none_iff (bk : FsPath → Option IoError) :
    ∀ ps, (backupSeq bk ps).2 = none ↔ ∀ p ∈ ps, bk p = none := by
  intro ps
  induction ps with
  | nil => simp [backupSeq]
  | cons q ps ih =>
    cases hq : bk q with
    | none => simp [backupSeq, hq, ih]
    | some e => simp [backupSeq, hq]

/-- A first failing invocation stops the backup sequence: the failing
source is the last invoked, the error is returned, and the tail is never
attempted. -/
theorem backupSeq_fail (bk : FsPath → Option IoError) (p0 : FsPath) (e : IoError)
    (hp0 : bk p0 = some e) :
    ∀ pre post, (∀ p ∈ pre, bk p = none) →
      backupSeq bk (pre ++ p0 :: post) = (pre ++ [p0], some e) := by
  intro pre
  induction pre with
  | nil =>
    intro post h
    rw [List.nil_append, backupSeq, hp0]
    rfl
  | cons q pre ih =>
    intro post h
    rw [List.cons_append, backupSeq, h q (by simp)]
    simp only []
    rw [ih post (fun p hp => h p (by simp [hp]))]
    rfl

/-- Filtering by a predicate the element satisfies preserves its count. -/
theorem count_filter_of_pos {α : Type} [BEq α] [LawfulBEq α] (f : α → Bool) (a : α)
    (hf : f a = true) : ∀ l : List α, (l.filter f).count a = l.count a := by
  intro l
  induction l with
  | nil => rfl
  | cons b l ih =>
    by_cases hb : f b = true
    · rw [List.filter_cons_of_pos hb]
      simp [List.count_cons, ih]
    · have hba : ¬(a = b) := fun he => hb (he ▸ hf)
      rw [List.filter_cons_of_neg (by simpa using hb)]
      simp [List.count_cons, ih, hba]

/-- C1: for every event and every path it carries, with every backup
invocation succeeding: a `Modify(Any)` kind on a tracked path triggers
exactly one backup per occurrence of the path in the event (in
particular exactly one backup when the event carries it once); a
`Modify(Name(From))` kind on a tracked path triggers none; an untracked
path triggers none whatever the kind; and any kind other than
`Modify(Any)` triggers none. -/
theorem claim_C1 (tw : Taiwu) (bk : FsPath → Option IoError) (e : Event) (p : FsPath)
    (hbk : ∀ q, bk q = none) :
    (tw.is_save_file p = true → e.kind = .Modify .Any →
      (tw.process bk e).1.count p = e.paths.count p ∧
      (e.paths.count p = 1 → (tw.process bk e).1.count p = 1)) ∧
    (tw.is_save_file p = true → e.kind = .Modify (.Name .From) →
      p ∉ (tw.process bk e).1) ∧
    (tw.is_save_file p = false → p ∉ (tw.process bk e).1) ∧
    (e.kind ≠ .Modify .Any → p ∉ (tw.process bk e).1) := by
  have hseq : ∀ ps, backupSeq bk ps = (ps, none) :=
    fun ps => backupSeq_all_ok bk ps (fun q _ => hbk q)
  refine ⟨?_, ?_, ?_, ?_⟩
  · intro hs hk
    rw [Taiwu.process, hk, processGo_any, hseq]
    have hc := count_filter_of_pos tw.is_save_file p hs e.paths
    exact ⟨hc, fun h1 => by rw [hc, h1]⟩
  · intro hs hk
    rw [Taiwu.process, hk, processGo_ne_any tw bk _ (by simp)]
    simp
  · intro hs
    by_cases hk : e.kind = .Modify .Any
    · rw [Taiwu.process, hk, processGo_any, hseq]
      simp only []
      intro hmem
      have := List.of_mem_filter hmem
      rw [hs] at this
      exact absurd this (by simp)
    · rw [Taiwu.process, processGo_ne_any tw bk _ hk]
      simp
  · intro hk
    rw [Taiwu.process, processGo_ne_any tw bk _ hk]
    simp

/-- C1 witness: on a concrete engine, a `Modify(Any)` event carrying the
tracked slot-1 save file once triggers exactly one backup of it. -/
theorem claim_C1_witness :
    (twEx.process bkOk evEx).1.count (twEx.save_file 1) = 1 :=
  ((claim_C1 twEx bkOk evEx (twEx.save_file 1) (fun _ => rfl)).1
    (by decide) rfl).2 (by decide)

/-- C2: `backup_once` iterates the slot ids 1..5 in increasing order;
it returns without error exactly when every slot whose save file exists
backs up successfully; when all invoked backups succeed it invokes one
backup per existing slot, in slot order, skipping absent slots; and a
first failure is returned at once, the remaining slots never attempted
(the result does not depend on the slots after the failing one). -/
theorem claim_C2 (tw : Taiwu) (isFile : FsPath → Bool) (bk : FsPath → Option IoError) :
    slotIds = [1, 2, 3, 4, 5] ∧
    ((tw.backup_once isFile bk).2 = none ↔
      ∀ w ∈ slotIds, isFile (tw.save_file w) = true → bk (tw.save_file w) = none) ∧
    ((∀ w ∈ slotIds, isFile (tw.save_file w) = true → bk (tw.save_file w) = none) →
      tw.backup_once isFile bk =
        ((slotIds.filter fun w => isFile (tw.save_file w)).map tw.save_file, none)) ∧
    (∀ pre w0 post e, slotIds = pre ++ w0 :: post →
      (∀ w ∈ pre, isFile (tw.save_file w) = true → bk (tw.save_file w) = none) →
      isFile (tw.save_file w0) = true → bk (tw.save_file w0) = some e →
      tw.backup_once isFile bk =
        ((pre.filter fun w => isFile (tw.save_file w)).map tw.save_file
          ++ [tw.save_file w0], some e)) := by
  refine ⟨rfl, ?_, ?_, ?_⟩
  · rw [Taiwu.backup_once, backupOnceGo_eq, backupSeq_err_none_iff]
    constructor
    · intro H w hw hf
      exact H (tw.save_file w) (by
        simp only [List.mem_map, List.mem_filter]
        exact ⟨w, ⟨hw, hf⟩, rfl⟩)
    · intro H q hq
      simp only [List.mem_map, List.mem_filter] at hq
      obtain ⟨w, ⟨hw, hf⟩, rfl⟩ := hq
      exact H w hw hf
  · intro H
    rw [Taiwu.backup_once, backupOnceGo_eq, backupSeq_all_ok]
    intro q hq
    simp only [List.mem_map, List.mem_filter] at hq
    obtain ⟨w, ⟨hw, hf⟩, rfl⟩ := hq
    exact H w hw hf
  · intro pre w0 post e hsplit hpre hf0 he0
    rw [Taiwu.backup_once, backupOnceGo_eq, hsplit]
    rw [List.filter_append, List.filter_cons_of_pos (p := fun w => isFile (tw.save_file w)) hf0,
      List.map_append, List.map_cons]
    rw [backupSeq_fail bk (tw.save_file w0) e he0]
    intro q hq
    simp only [List.mem_map, List.mem_filter] at hq
    obtain ⟨w, ⟨hw, hf⟩, rfl⟩ := hq
    exact hpre w hw hf

/-- C2 witness: with only slots 1 and 3 present and all copies
succeeding, `backup_once` performs exactly the two backups, in order,
without error. -/
theorem claim_C2_witness :
    twEx.backup_once isFile13 bkOk = ([twEx.save_file 1, twEx.save_file 3], none) := by
  have h := (claim_C2 twEx isFile13 bkOk).2.2.1 (by decide)
  rw [h]
  decide

/-- C3 counterexample: the code names every artifact with the fixed save
file name `local.sav`, not with the source's file name, so for a source
whose file name differs from `local.sav` the computed destination is not
the `<sourceFileName>.<timestampNanos>` destination the claim states. -/
theorem claim_C3_counterexample :
    Taiwu.backup_dst twEx srcEx 1 ≠ spec_backup_dst twEx srcEx 1 := by decide

/-- C3 (amended): a successful backup writes the artifact to
`<BackupRoot>/<base name of the source's parent>/local.sav.<timestampNanos>`
with the fixed save-file name `local.sav`; this agrees with the claimed
`<sourceFileName>.<timestampNanos>` exactly in case the source's file
name is `local.sav`, which holds for every tracked path the program
passes to `backup`. -/
theorem claim_C3 (tw : Taiwu) (src : FsPath) (timestamp : Int) (folder : String)
    (hf : src.dropLast.getLast? = some folder) :
    tw.backup_dst src timestamp =
      some (tw.backup_root ++
        [folder, TAIWU_GAME_SAVE_FILE_NAME ++ "." ++ toString timestamp]) ∧
    (src.getLast? = some TAIWU_GAME_SAVE_FILE_NAME →
      tw.backup_dst src timestamp = spec_backup_dst tw src timestamp) := by
  constructor
  · rw [Taiwu.backup_dst, hf]
    rfl
  · intro hlast
    rw [Taiwu.backup_dst, spec_backup_dst, hf, hlast]
    rfl

/-- C3 witness: for the tracked slot-2 save file the computed destination
agrees with the claimed `<sourceFileName>.<timestampNanos>` form. -/
theorem claim_C3_witness :
    Taiwu.backup_dst twEx (twEx.save_file 2) 7 = spec_backup_dst twEx (twEx.save_file 2) 7 :=
  (claim_C3 twEx (twEx.save_file 2) 7 "world_2" (by decide)).2 (by decide)

/-- C4: during `watch()` (after successful setup), a backup IO error
raised while processing an event is returned from `watch()` and the
remaining notifications are never consumed (the result does not mention
them); a delivery error on the notification channel is skipped and the
loop continues with the next notification, with identical results. -/
theorem watchLoop_err_cons (tw : Taiwu) (bk : FsPath → Option IoError)
    (ne : NotifyError) (rest : List (Except NotifyError Event)) :
    watchLoop tw bk (.error ne :: rest) = watchLoop tw bk rest := rfl

theorem watchLoop_fail (tw : Taiwu) (bk : FsPath → Option IoError) (ev : Event)
    (rest : List (Except NotifyError Event)) (e : IoError)
    (he : (tw.process bk ev).2 = some e) :
    watchLoop tw bk (.ok ev :: rest) = ((tw.process bk ev).1, some e) := by
  rw [watchLoop]
  have hp : tw.process bk ev = ((tw.process bk ev).1, some e) := by
    rw [← he]
  rw [hp]

theorem claim_C4 (tw : Taiwu) (bk : FsPath → Option IoError) (ev : Event)
    (rest : List (Except NotifyError Event)) (ne : NotifyError) :
    (∀ e, (tw.process bk ev).2 = some e →
      tw.watch none bk (.ok ev :: rest) =
        (((tw.process bk ev).1, some (.IoError e)), { tw with watcher := some () })) ∧
    tw.watch none bk (.error ne :: rest) = tw.watch none bk rest := by
  constructor
  · intro e he
    have he1 : (Taiwu.process { tw with watcher := some () } bk ev).2 = some e := by
      rw [process_watcher]
      exact he
    rw [Taiwu.watch, watchLoop_fail _ bk ev rest e he1, process_watcher]
    rfl
  · rw [Taiwu.watch, Taiwu.watch, watchLoop_err_cons]

/-- C4 witness: a permission error during the backup of a processed event
is returned from `watch()` on a concrete engine. -/
theorem claim_C4_witness :
    twEx.watch none bkFail [.ok evEx] =
      (((twEx.process bkFail evEx).1, some (.IoError "permission denied")),
        { twEx with watcher := some () }) :=
  (claim_C4 twEx bkFail evEx [] "channel error").1 "permission denied" (by decide)

/-- C5: the tracked-path mapping is deterministic (it is a function: equal
inputs give equal paths), equals `<root>/Save/world_<id>/local.sav`, and
is injective on the slot ids 1..5 under a fixed root. -/
theorem claim_C5 (tw : Taiwu) (w w' : Nat) (hw1 : 1 ≤ w) (hw5 : w ≤ 5)
    (hw1' : 1 ≤ w') (hw5' : w' ≤ 5) :
    tw.save_file w = tw.save_file w ∧
    tw.save_file w = tw.game_root ++
      [TAIWU_GAME_SAVE_ROOT_NAME, "world_" ++ toString w, TAIWU_GAME_SAVE_FILE_NAME] ∧
    (w ≠ w' → tw.save_file w ≠ tw.save_file w') := by
  refine ⟨rfl, ?_, ?_⟩
  · rw [Taiwu.save_file, Taiwu.save_root, List.append_assoc]
    rfl
  · intro hne heq
    have key : ("world_" ++ toString w) ≠ ("world_" ++ toString w') := by
      interval_cases w <;> interval_cases w' <;> revert hne <;> decide
    rw [Taiwu.save_file, Taiwu.save_file, Taiwu.save_root] at heq
    have h2 := List.append_cancel_left heq
    simp only [List.cons.injEq] at h2
    exact key h2.1

/-- C5 witness: on a concrete root, the slot-1 and slot-2 tracked paths
are distinct. -/
theorem claim_C5_witness : twEx.save_file 1 ≠ twEx.save_file 2 :=
  (claim_C5 twEx 1 2 (by decide) (by decide) (by decide) (by decide)).2.2 (by decide)

/-- C6: two distinct nanosecond timestamps give two distinct artifact
file names, and hence two distinct destination paths for the same
source, so neither backup overwrites the other while the clock
advances. -/
theorem claim_C6 (tw : Taiwu) (src : FsPath) (t1 t2 : Int) (hne : t1 ≠ t2) :
    new_backup_file_name t1 ≠ new_backup_file_name t2 ∧
    (∀ d1 d2, tw.backup_dst src t1 = some d1 → tw.backup_dst src t2 = some d2 →
      d1 ≠ d2) := by
  have hname : new_backup_file_name t1 ≠ new_backup_file_name t2 := by
    intro h
    rw [new_backup_file_name, new_backup_file_name] at h
    have hd := congrArg String.data h
    rw [String.data_append, String.data_append] at hd
    have hts : (toString t1).data = (toString t2).data :=
      List.append_cancel_left hd
    have : toString t1 = toString t2 := String.ext hts
    rw [toString_int_eq, toString_int_eq] at this
    exact hne (int_repr_injective this)
  refine ⟨hname, ?_⟩
  intro d1 d2 h1 h2 heq
  rw [Taiwu.backup_dst] at h1 h2
  cases hm : src.dropLast.getLast? with
  | some folder =>
    rw [hm] at h1 h2
    simp only [Option.some.injEq] at h1 h2
    rw [← h1, ← h2] at heq
    have h3 := List.append_cancel_left heq
    simp only [List.cons.injEq] at h3
    exact hname h3.2.1
  | none =>
    rw [hm] at h1
    exact Option.noConfusion h1

/-- C6 witness: the artifact names at timestamps 0 and 1 differ. -/
theorem claim_C6_witness : new_backup_file_name 0 ≠ new_backup_file_name 1 :=
  (claim_C6 twEx (twEx.save_file 1) 0 1 (by decide)).1

/-- C7 counterexample: under a filesystem oracle on which no file exists,
processing a `Modify(Any)` event for a tracked path still invokes a
backup of it — the watch-event path performs no existence check before
calling `backup`, contradicting the claim that every invocation is
guarded by an existence check by the caller. -/
theorem claim_C7_counterexample :
    ¬ (∀ p ∈ (twEx.process bkOk evEx).1, noFile p = true) := by decide

/-- C7 (amended): the startup path `backup_once` invokes `backup` only on
paths the existence check accepted immediately before; the watch-event
path `process` invokes `backup` with no existence check — its
invocations are guarded only by tracked-path membership. -/
theorem claim_C7 (tw : Taiwu) (isFile : FsPath → Bool) (bk : FsPath → Option IoError) :
    (∀ p ∈ (tw.backup_once isFile bk).1, isFile p = true) ∧
    (∀ e : Event, ∀ p ∈ (tw.process bk e).1, tw.is_save_file p = true) := by
  constructor
  · intro p hp
    rw [Taiwu.backup_once, backupOnceGo_eq] at hp
    have hmem := backupSeq_trace_subset bk _ p hp
    simp only [List.mem_map, List.mem_filter] at hmem
    obtain ⟨w, ⟨_, hf⟩, rfl⟩ := hmem
    exact hf
  · intro e p hp
    by_cases hk : e.kind = .Modify .Any
    · rw [Taiwu.process, hk, processGo_any] at hp
      have hmem := backupSeq_trace_subset bk _ p hp
      exact List.of_mem_filter hmem
    · rw [Taiwu.process, processGo_ne_any tw bk _ hk] at hp
      exact absurd hp (by simp)

/-- C7 witness: on the startup path with only slots 1 and 3 present,
every invoked backup source passes the existence check; in particular
the slot-1 save file does. -/
theorem claim_C7_witness : isFile13 (twEx.save_file 1) = true :=
  (claim_C7 twEx isFile13 bkOk).1 (twEx.save_file 1) (by decide)

/-- C8: `unwatch()` on an engine with no watch handle is a no-op leaving
the state unchanged; after one `unwatch()` the handle is cleared, so a
second `unwatch()` is again a no-op. -/
theorem claim_C8 (tw : Taiwu) :
    (tw.watcher = none → tw.unwatch = tw) ∧
    (tw.unwatch).watcher = none ∧
    (tw.unwatch).unwatch = tw.unwatch := by
  refine ⟨?_, rfl, rfl⟩
  intro h
  cases tw with
  | mk g b w =>
    simp only at h
    rw [Taiwu.unwatch, h]

/-- C8 witness: the concrete idle engine is unchanged by `unwatch()`. -/
theorem claim_C8_witness : twEx.unwatch = twEx :=
  (claim_C8 twEx).1 rfl

/-- C9: the game-root and backup-root fields are unchanged by every
sequence of engine operations (`backup_once`, `watch`, `unwatch`,
`backup`), so the accessors return the same values before and after. -/
theorem claim_C9 (tw : Taiwu) (ops : List Op) :
    (applyOps tw ops).game_root = tw.game_root ∧
    (applyOps tw ops).backup_root = tw.backup_root := by
  have hop : ∀ (tw : Taiwu) (op : Op),
      (applyOp tw op).game_root = tw.game_root ∧
      (applyOp tw op).backup_root = tw.backup_root := by
    intro tw op
    cases op with
    | backupOnce isFile bk => exact ⟨rfl, rfl⟩
    | watch setup bk ns => cases setup <;> exact ⟨rfl, rfl⟩
    | unwatch => exact ⟨rfl, rfl⟩
    | backup src t => exact ⟨rfl, rfl⟩
  induction ops generalizing tw with
  | nil => exact ⟨rfl, rfl⟩
  | cons op ops ih =>
    rw [applyOps, List.foldl_cons]
    have h1 := hop tw op
    have h2 := ih (applyOp tw op)
    rw [applyOps] at h2
    exact ⟨h2.1.trans h1.1, h2.2.trans h1.2⟩

/-- C10: constructing an engine from an explicit path fails with
`GameRootNotFound` exactly when the path is not an existing directory;
an existing directory is always accepted as the game root (on success
the engine's game root is that path), and only the directory status of
the given path is consulted — nothing else about its contents. -/
theorem claim_C10 (isDir : FsPath → Bool) (baseDirs : Option FsPath) (path : FsPath) :
    (Taiwu.with_path isDir baseDirs path = .error .GameRootNotFound ↔
      isDir path = false) ∧
    (∀ tw, Taiwu.with_path isDir baseDirs path = .ok tw → tw.game_root = path) ∧
    (∀ isDir2 : FsPath → Bool, isDir path = isDir2 path →
      Taiwu.with_path isDir baseDirs path = Taiwu.with_path isDir2 baseDirs path) := by
  refine ⟨?_, ?_, ?_⟩
  · rw [Taiwu.with_path, GameRoot.new]
    by_cases hd : isDir path
    · rw [if_pos hd]
      cases baseDirs with
      | some d => simp [get_backup_root_default, hd]
      | none => simp [get_backup_root_default, hd]
    · rw [if_neg hd]
      simp only [Bool.not_eq_true] at hd
      simp [hd]
  · intro tw h
    rw [Taiwu.with_path, GameRoot.new] at h
    by_cases hd : isDir path
    · rw [if_pos hd] at h
      cases baseDirs with
      | some d =>
        simp only [get_backup_root_default, Except.ok.injEq] at h
        rw [← h]
      | none => simp [get_backup_root_default] at h
    · rw [if_neg hd] at h
      exact Except.noConfusion h
  · intro isDir2 heq
    rw [Taiwu.with_path, Taiwu.with_path, GameRoot.new, GameRoot.new, heq]

/-- C10 witness: an existing directory with no Save subtree is accepted,
and the constructed engine's game root is the given path. -/
theorem claim_C10_witness :
    ({ game_root := ["D:", "Empty"],
       backup_root := ["D:", "AppData", APPDATA_FOLDER_NAME, BACKUP_FOLDER_NAME],
       watcher := none } : Taiwu).game_root = ["D:", "Empty"] :=
  (claim_C10 allDirs (some ["D:", "AppData"]) ["D:", "Empty"]).2.1 _ rfl
